import Mathlib

/-!
Shallow embedding of the nvidia-license-server-exporter core:
the CLS fetch/aggregate pipeline (`internal/cls/client.go`) and the
snapshot cache/coalescing service (`internal/snapshot/service.go`).
Quantities that are `float64` in the source are modelled as `ℚ`
(the pipeline only adds, subtracts, compares and clamps them);
`time.Time` instants are modelled as `Int` ticks and durations as `ℚ`.
Fallible calls return `Except String`.
-/

set_option maxHeartbeats 1000000

namespace NvExporter

/-! ## Generic helpers: Go maps as association lists -/

/-- First-match lookup in an association list, mirroring Go map indexing. -/
def lookupA {α β : Type} [DecidableEq α] : List (α × β) → α → Option β
  | [], _ => none
  | (k', v) :: rest, k => if k = k' then some v else lookupA rest k

/-- Go map indexing with a zero-value default (`m[k]`). -/
def getD {α β : Type} [DecidableEq α] (m : List (α × β)) (k : α) (d : β) : β :=
  (lookupA m k).getD d

/-- Go map assignment `m[k] = v`: replace an existing entry or append. -/
def insertReplace {α β : Type} [DecidableEq α] : List (α × β) → α → β → List (α × β)
  | [], k, v => [(k, v)]
  | (k', v') :: rest, k, v =>
    if k = k' then (k, v) :: rest else (k', v') :: insertReplace rest k v

/-- Go map accumulation `m[k] += c` for numeric values. -/
def addToKey {α : Type} [DecidableEq α] : List (α × ℚ) → α → ℚ → List (α × ℚ)
  | [], k, c => [(k, c)]
  | (k', v) :: rest, k, c =>
    if k = k' then (k, v + c) :: rest else (k', v) :: addToKey rest k c

/-- Remove the first entry with the given key, if any. -/
def eraseKey {α β : Type} [DecidableEq α] : List (α × β) → α → List (α × β)
  | [], _ => []
  | (k', v) :: rest, k => if k = k' then rest else (k', v) :: eraseKey rest k

/-- Sum of all values of an association list. -/
def sumValues {α : Type} (m : List (α × ℚ)) : ℚ :=
  (m.map Prod.snd).sum

/-- `flatMap` written out, to keep inductions elementary. -/
def flatMapL {α β : Type} (f : α → List β) : List α → List β
  | [] => []
  | a :: as => f a ++ flatMapL f as

/-- `strings.TrimSpace`, written over the character list so that it
evaluates in the kernel. -/
def trimS (s : String) : String :=
  String.mk (((s.data.dropWhile Char.isWhitespace).reverse.dropWhile Char.isWhitespace).reverse)

/-- `source: maxFloat64` -/
def maxFloat64 (a b : ℚ) : ℚ :=
  if a > b then a else b

/-- `source: firstNonEmptyNonBlank` — first value whose trimmed form is
non-empty, returned trimmed; otherwise the empty string. -/
def firstNonEmptyNonBlank : List String → String
  | [] => ""
  | v :: rest => if trimS v ≠ "" then trimS v else firstNonEmptyNonBlank rest

/-- Whether an `Except` value is an error. -/
def eIsError {ε α : Type} : Except ε α → Bool
  | .error _ => true
  | .ok _ => false

/-- Whether an `Except` value is a success. -/
def eIsOk {ε α : Type} : Except ε α → Bool
  | .error _ => false
  | .ok _ => true

/-! ## CLS payload types (`internal/cls/client.go`) -/

structure entitlementFeature where
  featureName : String
  featureVersion : String
  productName : String
  licenseType : String
  totalQuantity : ℚ
  inUseQuantity : ℚ
  unassignedQuantity : ℚ
deriving DecidableEq

structure entitlementProductKey where
  entitlementFeatures : List entitlementFeature
deriving DecidableEq

structure entitlementSummary where
  entitlementProductKeys : List entitlementProductKey
deriving DecidableEq

structure virtualGroup where
  id : Int
  name : String
  entitlements : List entitlementSummary
deriving DecidableEq

structure licenseServerFeature where
  id : String
  featureName : String
  productName : String
  licenseType : String
  totalQuantity : ℚ
deriving DecidableEq

instance : Inhabited licenseServerFeature :=
  ⟨⟨"", "", "", "", 0⟩⟩

structure licenseServer where
  id : String
  name : String
  status : String
  virtualGroupID : Int
  virtualGroupName : String
  deployedOn : String
  leasingMode : String
  serviceInstanceID : String
  licenseServerFeatures : List licenseServerFeature
deriving DecidableEq

instance : Inhabited licenseServer :=
  ⟨⟨"", "", "", 0, "", "", "", "", []⟩⟩

structure licensePoolFeature where
  licenseServerFeatureID : String
  totalAllotment : ℚ
  inUse : ℚ
deriving DecidableEq

structure licensePool where
  id : String
  name : String
  licensePoolFeatures : List licensePoolFeature
deriving DecidableEq

structure activeLease where
  leaseID : String
  featureName : String
  leaseCount : ℚ
  licenseAllotmentFeatureID : String
deriving DecidableEq

structure activeLeaseAdditionalProperties where
  licenseServerID : String
  licenseServerName : String
deriving DecidableEq

structure activeLeaseClient where
  leases : List activeLease
  additionalProperties : activeLeaseAdditionalProperties
deriving DecidableEq

/-! ## Snapshot row types -/

structure EntitlementFeatureSnapshot where
  virtualGroupID : Int
  virtualGroupName : String
  featureName : String
  featureVersion : String
  productName : String
  licenseType : String
  totalQuantity : ℚ
  inUseQuantity : ℚ
  unassigned : ℚ
deriving DecidableEq

structure ServerFeatureCapacitySnapshot where
  virtualGroupID : Int
  virtualGroupName : String
  serverID : String
  serverName : String
  serverStatus : String
  deployedOn : String
  leasingMode : String
  featureName : String
  productName : String
  licenseType : String
  totalQuantity : ℚ
deriving DecidableEq

structure ServerUsageSnapshot where
  virtualGroupID : Int
  virtualGroupName : String
  serverID : String
  serverName : String
  serverStatus : String
  deployedOn : String
  leasingMode : String
  allocated : ℚ
  inUse : ℚ
  available : ℚ
deriving DecidableEq

structure ServerActiveLeaseSnapshot where
  virtualGroupID : Int
  virtualGroupName : String
  serverID : String
  serverName : String
  activeLeases : ℚ
deriving DecidableEq

structure ServerFeatureActiveLeaseSnapshot where
  virtualGroupID : Int
  virtualGroupName : String
  serverID : String
  serverName : String
  featureName : String
  productName : String
  licenseType : String
  activeLeases : ℚ
deriving DecidableEq

structure PoolUsageSnapshot where
  virtualGroupID : Int
  virtualGroupName : String
  serverID : String
  serverName : String
  poolID : String
  poolName : String
  featureName : String
  productName : String
  licenseType : String
  allocated : ℚ
  inUse : ℚ
  available : ℚ
deriving DecidableEq

structure Snapshot where
  collectedAt : Int
  entitlementFeatures : List EntitlementFeatureSnapshot
  serverFeatureCapacity : List ServerFeatureCapacitySnapshot
  serverUsage : List ServerUsageSnapshot
  serverActiveLeases : List ServerActiveLeaseSnapshot
  serverFeatureActiveLeases : List ServerFeatureActiveLeaseSnapshot
  activeLeaseTotal : ℚ
  poolUsage : List PoolUsageSnapshot
deriving DecidableEq

instance : Inhabited Snapshot :=
  ⟨⟨0, [], [], [], [], [], 0, []⟩⟩

/-! ## Cache service (`internal/snapshot/service.go`) -/

structure Meta where
  up : ℚ
  durationSeconds : ℚ
  timestamp : Int
  cacheHit : Bool
deriving DecidableEq

instance : Inhabited Meta :=
  ⟨⟨0, 0, 0, false⟩⟩

/-- `source: Service` mutable state. The singleflight group is not part of
the sequential state; a refresh outcome is passed in explicitly. -/
structure ServiceState where
  cacheTTL : Int
  snapshot : Option Snapshot
  meta : Meta
  cachedAt : Int
deriving DecidableEq

/-- `source: defaultCacheTTL = 60 * time.Second` (one tick = one second). -/
def defaultCacheTTL : Int := 60

/-- `source: NewService` -/
def newService (cacheTTL : Int) : ServiceState :=
  { cacheTTL := if cacheTTL ≤ 0 then defaultCacheTTL else cacheTTL
    snapshot := none
    meta := default
    cachedAt := 0 }

/-- `source: Service.Refresh`, body of the singleflight function.
The fetch outcome, its measured duration and the current instant are inputs;
the call returns the updated service state and the caller-visible result. -/
def ServiceState.refresh (s : ServiceState) (fetched : Except String Snapshot)
    (duration : ℚ) (now : Int) : ServiceState × Except String (Snapshot × Meta) :=
  match fetched with
  | .ok snap =>
    let meta : Meta := ⟨1, duration, snap.collectedAt, false⟩
    ({ s with snapshot := some snap, meta := meta, cachedAt := now }, .ok (snap, meta))
  | .error e =>
    match s.snapshot with
    | some prev =>
      let staleMeta : Meta := ⟨0, duration, prev.collectedAt, false⟩
      ({ s with meta := staleMeta }, .ok (prev, staleMeta))
    | none =>
      ({ s with meta := ⟨0, duration, now, false⟩ }, .error e)

/-- `source: Service.Get`. The trailing `Bool` records whether the Fetcher
was invoked (`true` exactly when the call fell through to `Refresh`). -/
def ServiceState.get (s : ServiceState) (now : Int) (fetched : Except String Snapshot)
    (duration : ℚ) (fetchNow : Int) :
    ServiceState × Except String (Snapshot × Meta) × Bool :=
  match s.snapshot with
  | some snap =>
    if now - s.cachedAt < s.cacheTTL then
      (s, .ok (snap, { s.meta with cacheHit := true, durationSeconds := 0 }), false)
    else
      let p := s.refresh fetched duration fetchNow
      (p.1, p.2, true)
  | none =>
    let p := s.refresh fetched duration fetchNow
    (p.1, p.2, true)

/-- `source: Service.Latest` -/
def ServiceState.latest (s : ServiceState) : Option Snapshot × Meta × Bool :=
  match s.snapshot with
  | none => (none, default, false)
  | some snap => (some snap, s.meta, true)

/-! ## Fetch pipeline (`internal/cls/client.go`, `Client.FetchSnapshot`)

The four phases are modelled sequentially.  In the source each fan-out phase
runs its per-item bodies concurrently under an errgroup with a shared mutex
around every accumulator update; for the value-level claims proved here the
result of any interleaving equals the result of processing the items in some
list order, so the model takes the items in list order. -/

/-- The network environment of one `FetchSnapshot` call: the outcome of each
possible upstream request, plus the collection instant (`time.Now`). -/
structure FetchWorld where
  virtualGroups : Except String (List virtualGroup)
  licenseServers : Int → Except String (List licenseServer)
  activeLeases : Int → String → Except String (List activeLeaseClient)
  licensePools : Int → String → Except String (List licensePool)
  now : Int

/-- `source: extractEntitlementFeatureMetrics` -/
def extractEntitlementFeatureMetrics (virtualGroups : List virtualGroup) :
    List EntitlementFeatureSnapshot :=
  flatMapL (fun vg =>
    flatMapL (fun ent =>
      flatMapL (fun key =>
        (key.entitlementFeatures.map (fun feature =>
          { virtualGroupID := vg.id
            virtualGroupName := vg.name
            featureName := feature.featureName
            featureVersion := feature.featureVersion
            productName := feature.productName
            licenseType := feature.licenseType
            totalQuantity := feature.totalQuantity
            inUseQuantity := feature.inUseQuantity
            unassigned := feature.unassignedQuantity })))
        ent.entitlementProductKeys)
      vg.entitlements)
    virtualGroups

/-- Phase 2 backfill: a server inherits its group's id/name when absent. -/
def backfillServer (vg : virtualGroup) (s : licenseServer) : licenseServer :=
  let s1 := if s.virtualGroupID = 0 then { s with virtualGroupID := vg.id } else s
  if s1.virtualGroupName = "" then { s1 with virtualGroupName := vg.name } else s1

/-- Phase 2: list each group's license servers into `serversByVG`. -/
def listServersPhase (fetch : Int → Except String (List licenseServer)) :
    List virtualGroup → Except String (List (Int × List licenseServer))
  | [] => .ok []
  | vg :: rest =>
    match fetch vg.id with
    | .error e =>
      .error ("list license servers for virtual-group " ++ toString vg.id ++ ": " ++ e)
    | .ok servers =>
      match listServersPhase fetch rest with
      | .error e => .error e
      | .ok m => .ok (insertReplace m vg.id (servers.map (backfillServer vg)))

/-! ### Phase 3: active-lease reconciliation (`Client.fetchActiveLeaseUsage`) -/

structure ActiveFeatureKey where
  virtualGroupID : Int
  virtualGroupName : String
  serverID : String
  serverName : String
  featureName : String
  productName : String
  licenseType : String
deriving DecidableEq

/-- Per-group context shared by all lease queries of one virtual group,
specialised to one service-instance id: one element per upstream
`listActiveLeases` call. -/
structure GroupLeaseCtx where
  virtualGroupID : Int
  virtualGroupName : String
  serverByID : List (String × licenseServer)
  featureByAllotmentID : List (String × licenseServerFeature)
  serviceInstanceID : String

/-- `serverByID` map of one group. -/
def buildServerByID (servers : List licenseServer) : List (String × licenseServer) :=
  servers.foldl (fun m s => insertReplace m s.id s) []

/-- `featureByAllotmentID` map of one group. -/
def buildFeatureByAllotmentID (servers : List licenseServer) :
    List (String × licenseServerFeature) :=
  servers.foldl (fun m s =>
    s.licenseServerFeatures.foldl (fun m' f => insertReplace m' f.id f) m) []

/-- The set `serviceInstanceIDs` of one group, in first-seen order. -/
def serviceInstanceIDsOf (servers : List licenseServer) : List String :=
  servers.foldl (fun acc s =>
    if trimS s.serviceInstanceID ≠ "" ∧ s.serviceInstanceID ∉ acc then
      acc ++ [s.serviceInstanceID]
    else acc) []

/-- The lease queries spawned for one group (none if it has no servers). -/
def groupQueries (vgID : Int) (servers : List licenseServer) : List GroupLeaseCtx :=
  match servers with
  | [] => []
  | s0 :: _ =>
    (serviceInstanceIDsOf servers).map (fun si =>
      { virtualGroupID := vgID
        virtualGroupName := s0.virtualGroupName
        serverByID := buildServerByID servers
        featureByAllotmentID := buildFeatureByAllotmentID servers
        serviceInstanceID := si })

/-- All lease queries of one fetch. -/
def allQueries (serversByVG : List (Int × List licenseServer)) : List GroupLeaseCtx :=
  flatMapL (fun p => groupQueries p.1 p.2) serversByVG

/-- Shared aggregation state of phase 3. -/
structure LeaseAgg where
  serverTotals : List (String × ℚ)
  featureTotals : List (ActiveFeatureKey × ℚ)
  seenLeaseIDs : List String
  total : ℚ

/-- The empty phase-3 state. -/
def emptyLeaseAgg : LeaseAgg := ⟨[], [], [], 0⟩

/-- `if leaseCount <= 0 { leaseCount = 1 }` -/
def normalizeLeaseCount (c : ℚ) : ℚ :=
  if c ≤ 0 then 1 else c

/-- The server id a client record resolves to: the explicit (trimmed)
`license_server_id`, or the sole key of `serverByID` when that is empty and
the map has exactly one entry; `""` when unresolvable. -/
def resolveServerID (serverByID : List (String × licenseServer))
    (client : activeLeaseClient) : String :=
  let sid := trimS client.additionalProperties.licenseServerID
  if sid = "" then
    match serverByID with
    | [entry] => entry.1
    | _ => sid
  else sid

/-- Inner lease loop body: normalize the count, build the feature key,
deduplicate by trimmed lease id, and accumulate the three aggregates. -/
def processLease (ctx : GroupLeaseCtx) (serverID serverName : String)
    (lease : activeLease) (st : LeaseAgg) : LeaseAgg :=
  let leaseCount := normalizeLeaseCount lease.leaseCount
  let feature := getD ctx.featureByAllotmentID lease.licenseAllotmentFeatureID default
  let featureName := firstNonEmptyNonBlank [lease.featureName, feature.featureName]
  let productName := firstNonEmptyNonBlank [feature.productName, "unknown"]
  let licenseType := firstNonEmptyNonBlank [feature.licenseType, "unknown"]
  let server := getD ctx.serverByID serverID default
  let key : ActiveFeatureKey :=
    { virtualGroupID := ctx.virtualGroupID
      virtualGroupName := firstNonEmptyNonBlank [server.virtualGroupName, ctx.virtualGroupName]
      serverID := serverID
      serverName := serverName
      featureName := firstNonEmptyNonBlank [featureName, "unknown"]
      productName := productName
      licenseType := licenseType }
  let leaseID := trimS lease.leaseID
  if leaseID ≠ "" ∧ leaseID ∈ st.seenLeaseIDs then st
  else
    { serverTotals := addToKey st.serverTotals serverID leaseCount
      featureTotals := addToKey st.featureTotals key leaseCount
      seenLeaseIDs := if leaseID = "" then st.seenLeaseIDs else leaseID :: st.seenLeaseIDs
      total := st.total + leaseCount }

/-- Client loop body: resolve the owning server or skip the client whole. -/
def processClient (ctx : GroupLeaseCtx) (client : activeLeaseClient)
    (st : LeaseAgg) : LeaseAgg :=
  let serverID := resolveServerID ctx.serverByID client
  if serverID = "" then st
  else
    let server := getD ctx.serverByID serverID default
    let serverName0 :=
      firstNonEmptyNonBlank [client.additionalProperties.licenseServerName, server.name]
    let serverName := if serverName0 = "" then "unknown" else serverName0
    client.leases.foldl (fun s l => processLease ctx serverID serverName l s) st

/-- Process all client records returned by one lease query. -/
def processQuery (ctx : GroupLeaseCtx) (clients : List activeLeaseClient)
    (st : LeaseAgg) : LeaseAgg :=
  clients.foldl (fun s c => processClient ctx c s) st

/-- Run the lease queries in order, aborting at the first fetch failure. -/
def runLeaseQueries (fetch : Int → String → Except String (List activeLeaseClient)) :
    List GroupLeaseCtx → LeaseAgg → Except String LeaseAgg
  | [], st => .ok st
  | ctx :: rest, st =>
    match fetch ctx.virtualGroupID ctx.serviceInstanceID with
    | .error e =>
      .error ("list active leases for virtual-group " ++ toString ctx.virtualGroupID
        ++ " service-instance " ++ ctx.serviceInstanceID ++ ": " ++ e)
    | .ok clients => runLeaseQueries fetch rest (processQuery ctx clients st)

/-- Pure core of phase 3: aggregate already-fetched query responses. -/
def aggregateQueries (queryData : List (GroupLeaseCtx × List activeLeaseClient))
    (st : LeaseAgg) : LeaseAgg :=
  queryData.foldl (fun s q => processQuery q.1 q.2 s) st

/-- One `ServerActiveLeaseSnapshot` row per listed server with a total. -/
def buildServerActiveLeaseRows (serversByVG : List (Int × List licenseServer))
    (serverTotals : List (String × ℚ)) : List ServerActiveLeaseSnapshot :=
  flatMapL (fun p =>
    flatMapL (fun server =>
      match lookupA serverTotals server.id with
      | none => []
      | some count =>
        [{ virtualGroupID := p.1
           virtualGroupName := server.virtualGroupName
           serverID := server.id
           serverName := server.name
           activeLeases := count }])
      p.2)
    serversByVG

/-- One `ServerFeatureActiveLeaseSnapshot` row per feature-total entry. -/
def buildFeatureActiveLeaseRows (featureTotals : List (ActiveFeatureKey × ℚ)) :
    List ServerFeatureActiveLeaseSnapshot :=
  featureTotals.map (fun p =>
    { virtualGroupID := p.1.virtualGroupID
      virtualGroupName := p.1.virtualGroupName
      serverID := p.1.serverID
      serverName := p.1.serverName
      featureName := p.1.featureName
      productName := p.1.productName
      licenseType := p.1.licenseType
      activeLeases := p.2 })

/-- `source: Client.fetchActiveLeaseUsage` -/
def fetchActiveLeaseUsage (fetch : Int → String → Except String (List activeLeaseClient))
    (serversByVG : List (Int × List licenseServer)) :
    Except String (List (String × ℚ) × List ServerActiveLeaseSnapshot
      × List ServerFeatureActiveLeaseSnapshot × ℚ) :=
  match runLeaseQueries fetch (allQueries serversByVG) emptyLeaseAgg with
  | .error e => .error e
  | .ok st =>
    .ok (st.serverTotals,
         buildServerActiveLeaseRows serversByVG st.serverTotals,
         buildFeatureActiveLeaseRows st.featureTotals,
         st.total)

/-! ### Specification-side rendering of the dedup/normalization policy -/

/-- The lease observations contributed by one client record, in processing
order: resolved server id (`""` when the client is unresolvable), trimmed
lease id, normalized lease count. -/
def clientLeaseEntries (ctx : GroupLeaseCtx) (client : activeLeaseClient) :
    List (String × String × ℚ) :=
  client.leases.map (fun lease =>
    (resolveServerID ctx.serverByID client, trimS lease.leaseID,
     normalizeLeaseCount lease.leaseCount))

/-- All lease observations of a fetch, in processing order. -/
def queryLeaseEntries (queryData : List (GroupLeaseCtx × List activeLeaseClient)) :
    List (String × String × ℚ) :=
  flatMapL (fun q => flatMapL (clientLeaseEntries q.1) q.2) queryData

/-- One step of the claimed counting policy over `(seen ids, running total)`:
an observation counts iff its client resolved to a server id and its lease id
is empty or not yet seen; a counted non-empty lease id becomes seen, so the
first occurrence wins globally. -/
def dedupStep (entry : String × String × ℚ) (acc : List String × ℚ) : List String × ℚ :=
  if entry.1 = "" then acc
  else if entry.2.1 ≠ "" ∧ entry.2.1 ∈ acc.1 then acc
  else ((if entry.2.1 = "" then acc.1 else entry.2.1 :: acc.1), acc.2 + entry.2.2)

/-- The claimed counting policy folded over an observation sequence. -/
def dedupFold (entries : List (String × String × ℚ)) (acc : List String × ℚ) :
    List String × ℚ :=
  entries.foldl (fun a e => dedupStep e a) acc

/-- All values of an association list are non-negative. -/
def nonnegValues {α : Type} (m : List (α × ℚ)) : Prop :=
  ∀ p ∈ m, 0 ≤ p.2

/-! ### Phase 4: pools, capacity and server usage -/

/-- Pool-derived allocation of one server: sum of its pools' allotments. -/
def poolDerivedAllocated (pools : List licensePool) : ℚ :=
  ((flatMapL (fun pool => pool.licensePoolFeatures) pools).map
    licensePoolFeature.totalAllotment).sum

/-- Pool-derived in-use figure of one server. -/
def poolDerivedInUse (pools : List licensePool) : ℚ :=
  ((flatMapL (fun pool => pool.licensePoolFeatures) pools).map
    licensePoolFeature.inUse).sum

/-- Per-server goroutine body of phase 4: capacity rows, pool-usage rows and
the server-usage rollup, with the active-lease override. -/
def processServer (activeByServer : List (String × ℚ)) (server : licenseServer)
    (pools : List licensePool) :
    List ServerFeatureCapacitySnapshot × List PoolUsageSnapshot × ServerUsageSnapshot :=
  let featureByID := server.licenseServerFeatures.foldl (fun m f => insertReplace m f.id f) []
  let serverFeatureCapacity := server.licenseServerFeatures.map (fun feature =>
    { virtualGroupID := server.virtualGroupID
      virtualGroupName := server.virtualGroupName
      serverID := server.id
      serverName := server.name
      serverStatus := server.status
      deployedOn := server.deployedOn
      leasingMode := server.leasingMode
      featureName := feature.featureName
      productName := feature.productName
      licenseType := feature.licenseType
      totalQuantity := feature.totalQuantity })
  let poolUsage := flatMapL (fun pool =>
    pool.licensePoolFeatures.map (fun feature =>
      let serverFeature := getD featureByID feature.licenseServerFeatureID default
      let allocated := feature.totalAllotment
      let inUse := feature.inUse
      let available := if allocated - inUse < 0 then 0 else allocated - inUse
      { virtualGroupID := server.virtualGroupID
        virtualGroupName := server.virtualGroupName
        serverID := server.id
        serverName := server.name
        poolID := pool.id
        poolName := pool.name
        featureName := serverFeature.featureName
        productName := serverFeature.productName
        licenseType := serverFeature.licenseType
        allocated := allocated
        inUse := inUse
        available := available })) pools
  let serverAllocated := poolDerivedAllocated pools
  let serverInUse := poolDerivedInUse pools
  let base : ServerUsageSnapshot :=
    { virtualGroupID := server.virtualGroupID
      virtualGroupName := server.virtualGroupName
      serverID := server.id
      serverName := server.name
      serverStatus := server.status
      deployedOn := server.deployedOn
      leasingMode := server.leasingMode
      allocated := serverAllocated
      inUse := serverInUse
      available := maxFloat64 0 (serverAllocated - serverInUse) }
  let serverUsage :=
    match lookupA activeByServer server.id with
    | some activeLeaseCount =>
      { base with inUse := activeLeaseCount
                  available := maxFloat64 0 (serverAllocated - activeLeaseCount) }
    | none => base
  (serverFeatureCapacity, poolUsage, serverUsage)

/-- Phase 4 inner loop over one group's servers. -/
def poolPhaseServers (fetchPools : Int → String → Except String (List licensePool))
    (activeByServer : List (String × ℚ)) (vgID : Int) :
    List licenseServer →
    Except String (List ServerFeatureCapacitySnapshot × List PoolUsageSnapshot
      × List ServerUsageSnapshot)
  | [] => .ok ([], [], [])
  | server :: rest =>
    match fetchPools vgID server.id with
    | .error e =>
      .error ("list license pools for server " ++ server.id ++ " in virtual-group "
        ++ toString vgID ++ ": " ++ e)
    | .ok pools =>
      let r := processServer activeByServer server pools
      match poolPhaseServers fetchPools activeByServer vgID rest with
      | .error e => .error e
      | .ok (caps, pus, sus) => .ok (r.1 ++ caps, r.2.1 ++ pus, r.2.2 :: sus)

/-- Phase 4 outer loop over the virtual groups. -/
def poolPhase (fetchPools : Int → String → Except String (List licensePool))
    (activeByServer : List (String × ℚ))
    (serversByVG : List (Int × List licenseServer)) :
    List virtualGroup →
    Except String (List ServerFeatureCapacitySnapshot × List PoolUsageSnapshot
      × List ServerUsageSnapshot)
  | [] => .ok ([], [], [])
  | vg :: rest =>
    match poolPhaseServers fetchPools activeByServer vg.id (getD serversByVG vg.id []) with
    | .error e => .error e
    | .ok (caps, pus, sus) =>
      match poolPhase fetchPools activeByServer serversByVG rest with
      | .error e => .error e
      | .ok (caps', pus', sus') => .ok (caps ++ caps', pus ++ pus', sus ++ sus')

/-- `source: Client.FetchSnapshot` -/
def fetchSnapshot (w : FetchWorld) : Except String Snapshot :=
  match w.virtualGroups with
  | .error e => .error e
  | .ok vgs =>
    match listServersPhase w.licenseServers vgs with
    | .error e => .error e
    | .ok serversByVG =>
      match fetchActiveLeaseUsage w.activeLeases serversByVG with
      | .error e => .error e
      | .ok (activeByServer, serverActiveLeases, serverFeatureActiveLeases, activeLeaseTotal) =>
        match poolPhase w.licensePools activeByServer serversByVG vgs with
        | .error e => .error e
        | .ok (serverFeatureCapacity, poolUsage, serverUsage) =>
          .ok { collectedAt := w.now
                entitlementFeatures := extractEntitlementFeatureMetrics vgs
                serverFeatureCapacity := serverFeatureCapacity
                serverUsage := serverUsage
                serverActiveLeases := serverActiveLeases
                serverFeatureActiveLeases := serverFeatureActiveLeases
                activeLeaseTotal := activeLeaseTotal
                poolUsage := poolUsage }

/-! ## Concrete sample data -/

/-- A committed snapshot collected at instant 7. -/
def sampleSnap : Snapshot := ⟨7, [], [], [], [], [], 0, []⟩

/-- A service state holding `sampleSnap`, cached at instant 3 with TTL 60. -/
def sampleState : ServiceState :=
  { cacheTTL := 60, snapshot := some sampleSnap, meta := ⟨1, 1, 7, false⟩, cachedAt := 3 }

/-- Feature capacity `af-1` of the scenario server. -/
def sampleFeature : licenseServerFeature := ⟨"af-1", "f1", "p", "t", 100⟩

/-- The scenario server `srv-1` with service instance `si-1`. -/
def sampleServer : licenseServer := ⟨"srv-1", "S", "", 0, "", "", "", "si-1", [sampleFeature]⟩

/-- Spec scenario world: group 1 has the single server `srv-1` with one
pool allotment of 100, and the active-lease query returns one lease `L1`
of count 3 attributed to `srv-1`. -/
def scenarioWorld : FetchWorld :=
  { virtualGroups := .ok [⟨1, "G", []⟩]
    licenseServers := fun vgid => if vgid = 1 then .ok [sampleServer] else .error "no vg"
    activeLeases := fun _ _ => .ok [⟨[⟨"L1", "f1", 3, "af-1"⟩], ⟨"srv-1", ""⟩⟩]
    licensePools := fun _ _ => .ok [⟨"pool-1", "P", [⟨"af-1", 100, 0⟩]⟩]
    now := 42 }

/-- World with a single pool feature of allotment 50 and in-use 80. -/
def overusedWorld : FetchWorld :=
  { virtualGroups := .ok [⟨1, "G", []⟩]
    licenseServers := fun _ => .ok [⟨"s1", "S", "", 0, "", "", "", "", []⟩]
    activeLeases := fun _ _ => .ok []
    licensePools := fun _ _ => .ok [⟨"p1", "P", [⟨"f1", 50, 80⟩]⟩]
    now := 0 }

/-- The snapshot produced for `overusedWorld`. -/
def overusedSnap : Snapshot := (fetchSnapshot overusedWorld).toOption.getD default

instance : Inhabited PoolUsageSnapshot :=
  ⟨⟨0, "", "", "", "", "", "", "", "", 0, 0, 0⟩⟩

/-- The single pool-usage row of `overusedSnap`. -/
def overusedPoolRow : PoolUsageSnapshot := overusedSnap.poolUsage.getD 0 default

/-- A group with one server whose active-lease response names a server id
(`ghost`) that is not in the fetched server list. -/
def ghostServersByVG : List (Int × List licenseServer) :=
  [(1, [⟨"a", "A", "", 1, "G", "", "", "si", []⟩])]

/-- Lease fetch for `ghostServersByVG`: one lease of count 2 on `ghost`. -/
def ghostFetch : Int → String → Except String (List activeLeaseClient) :=
  fun _ _ => .ok [⟨[⟨"L1", "f", 2, "x"⟩], ⟨"ghost", ""⟩⟩]

/-- The phase-3 result for the ghost configuration. -/
def ghostResult :
    List (String × ℚ) × List ServerActiveLeaseSnapshot
      × List ServerFeatureActiveLeaseSnapshot × ℚ :=
  (fetchActiveLeaseUsage ghostFetch ghostServersByVG).toOption.getD ([], [], [], 0)

/-- A two-server group context, under which a client with no explicit server
id cannot be resolved. -/
def twoServerCtx : GroupLeaseCtx :=
  { virtualGroupID := 1
    virtualGroupName := "G"
    serverByID := buildServerByID
      [⟨"a", "A", "", 1, "G", "", "", "si", []⟩, ⟨"b", "B", "", 1, "G", "", "", "si", []⟩]
    featureByAllotmentID := []
    serviceInstanceID := "si" }

/-- A client record with no explicit server id and one lease. -/
def anonClient : activeLeaseClient := ⟨[⟨"L9", "f", 1, "af"⟩], ⟨"", ""⟩⟩

/-- World whose root virtual-groups request fails. -/
def rootFailWorld : FetchWorld :=
  { virtualGroups := .error "boom"
    licenseServers := fun _ => .ok []
    activeLeases := fun _ _ => .ok []
    licensePools := fun _ _ => .ok []
    now := 0 }

/-! ## Theorems -/

/-- C1: When the underlying fetch of a `Refresh` call fails, the service
returns the previously committed snapshot without error together with a
committed `Meta` of `Up=0`, the failed attempt's duration, the stale
snapshot's original collection time and `CacheHit=false`; with no previous
snapshot it commits `Up=0, Timestamp=now` and propagates the error.  Hence
the failure surfaces as an error iff no prior snapshot exists. -/
theorem refresh_failure_policy (s : ServiceState) (e : String) (duration : ℚ) (now : Int) :
    (∀ prev, s.snapshot = some prev →
      s.refresh (.error e) duration now =
        ({ s with meta := ⟨0, duration, prev.collectedAt, false⟩ },
         .ok (prev, ⟨0, duration, prev.collectedAt, false⟩))) ∧
    (s.snapshot = none →
      s.refresh (.error e) duration now =
        ({ s with meta := ⟨0, duration, now, false⟩ }, .error e)) ∧
    (eIsError (s.refresh (.error e) duration now).2 = true ↔ s.snapshot = none) := by
  refine ⟨fun prev h => ?_, fun h => ?_, ?_⟩
  · simp [ServiceState.refresh, h]
  · simp [ServiceState.refresh, h]
  · cases h : s.snapshot <;> simp [ServiceState.refresh, h, eIsError]

/-- C1 witness: the stale-fallback branch at a concrete state. -/
theorem refresh_failure_policy_witness :
    sampleState.refresh (.error "boom") 2 100 =
      ({ sampleState with meta := ⟨0, 2, 7, false⟩ }, .ok (sampleSnap, ⟨0, 2, 7, false⟩)) :=
  (refresh_failure_policy sampleState "boom" 2 100).1 sampleSnap rfl

/-- C3: While a cached snapshot exists and its age is strictly below the TTL,
`Get` returns that snapshot with `CacheHit=true`, `DurationSeconds=0` and does
not invoke the Fetcher (flag `false`); otherwise it delegates to `Refresh`
(flag `true`). -/
theorem get_cache_policy (s : ServiceState) (now : Int) (fetched : Except String Snapshot)
    (duration : ℚ) (fetchNow : Int) :
    (∀ snap, s.snapshot = some snap → now - s.cachedAt < s.cacheTTL →
      s.get now fetched duration fetchNow =
        (s, .ok (snap, { s.meta with cacheHit := true, durationSeconds := 0 }), false)) ∧
    ((s.snapshot = none ∨ s.cacheTTL ≤ now - s.cachedAt) →
      s.get now fetched duration fetchNow =
        ((s.refresh fetched duration fetchNow).1,
         (s.refresh fetched duration fetchNow).2, true)) := by
  constructor
  · intro snap h hlt
    simp [ServiceState.get, h, hlt]
  · rintro (h | h)
    · simp [ServiceState.get, h]
    · cases hs : s.snapshot <;> simp [ServiceState.get, hs, not_lt.mpr h]

/-- C3 witness: a concrete cache hit (age 7 below TTL 60). -/
theorem get_cache_policy_witness :
    sampleState.get 10 (.error "down") 9 11 =
      (sampleState, .ok (sampleSnap, ⟨1, 0, 7, true⟩), false) :=
  (get_cache_policy sampleState 10 (.error "down") 9 11).1 sampleSnap rfl (by decide)

/-- C8 counterexample: after the very first fetch has occurred and failed,
`Latest` still reports `ok = false`, contradicting the claim that `ok=true`
holds after the first successful **or failed** fetch. -/
theorem latest_after_failed_first_fetch :
    (((newService 60).refresh (.error "boom") 2 5).1.latest) ≠
      ((((newService 60).refresh (.error "boom") 2 5).1.latest).1,
       (((newService 60).refresh (.error "boom") 2 5).1.latest).2.1, true) := by
  decide

/-- C8 (amended): `Latest` never blocks (it is a pure read), returns the
current cached snapshot and Meta, and reports `ok=true` iff a snapshot is
cached — which happens exactly upon the first **successful** fetch: a
successful refresh always installs a snapshot, a failed one never does, and
a fresh service holds none. -/
theorem latest_ok_iff_snapshot (s : ServiceState) (fr : Except String Snapshot)
    (d : ℚ) (now ttl : Int) :
    s.latest = (s.snapshot, if s.snapshot.isSome then s.meta else default, s.snapshot.isSome) ∧
    (s.refresh fr d now).1.snapshot.isSome = (s.snapshot.isSome || eIsOk fr) ∧
    (newService ttl).snapshot = none := by
  refine ⟨?_, ?_, ?_⟩
  · cases h : s.snapshot <;> simp [ServiceState.latest, h]
  · cases fr <;> cases hs : s.snapshot <;> simp [ServiceState.refresh, hs, eIsOk]
  · simp [newService]

/-! ### Helper lemmas -/

theorem mem_flatMapL {α β : Type} (f : α → List β) (l : List α) (b : β) :
    b ∈ flatMapL f l ↔ ∃ a ∈ l, b ∈ f a := by
  induction l with
  | nil => simp [flatMapL]
  | cons x xs ih => simp [flatMapL, ih]

theorem clamp_eq_maxFloat64 (x : ℚ) : (if x < 0 then 0 else x) = maxFloat64 0 x := by
  simp only [maxFloat64, gt_iff_lt]

/-- The pool-usage rows built for one server are clamped, and its usage row
is clamped with allocation equal to the pool-derived allocation. -/
theorem processServer_clamped (activeByServer : List (String × ℚ))
    (server : licenseServer) (pools : List licensePool) :
    (∀ row ∈ (processServer activeByServer server pools).2.1,
      row.available = maxFloat64 0 (row.allocated - row.inUse)) ∧
    ((processServer activeByServer server pools).2.2.available =
      maxFloat64 0 ((processServer activeByServer server pools).2.2.allocated -
        (processServer activeByServer server pools).2.2.inUse)) := by
  constructor
  · intro row hrow
    simp only [processServer, mem_flatMapL, List.mem_map] at hrow
    obtain ⟨pool, _, feature, _, rfl⟩ := hrow
    simp only [maxFloat64, gt_iff_lt]
  · cases h : lookupA activeByServer server.id <;> simp [processServer, h]

/-- Clamping propagated through the phase-4 inner loop. -/
theorem poolPhaseServers_clamped (fetchPools : Int → String → Except String (List licensePool))
    (activeByServer : List (String × ℚ)) (vgID : Int) (servers : List licenseServer)
    (caps : List ServerFeatureCapacitySnapshot) (pus : List PoolUsageSnapshot)
    (sus : List ServerUsageSnapshot)
    (h : poolPhaseServers fetchPools activeByServer vgID servers = .ok (caps, pus, sus)) :
    (∀ row ∈ pus, row.available = maxFloat64 0 (row.allocated - row.inUse)) ∧
    (∀ u ∈ sus, u.available = maxFloat64 0 (u.allocated - u.inUse)) := by
  induction servers generalizing caps pus sus with
  | nil =>
    simp only [poolPhaseServers] at h
    obtain ⟨rfl, rfl, rfl⟩ := by simpa using h
    simp
  | cons server rest ih =>
    simp only [poolPhaseServers] at h
    cases hf : fetchPools vgID server.id with
    | error e => rw [hf] at h; exact absurd h (by simp)
    | ok pools =>
      rw [hf] at h
      cases hr : poolPhaseServers fetchPools activeByServer vgID rest with
      | error e => rw [hr] at h; exact absurd h (by simp)
      | ok t =>
        obtain ⟨caps', pus', sus'⟩ := t
        rw [hr] at h
        simp only [Except.ok.injEq, Prod.mk.injEq] at h
        obtain ⟨rfl, rfl, rfl⟩ := h
        obtain ⟨ih1, ih2⟩ := ih caps' pus' sus' hr
        obtain ⟨h1, h2⟩ := processServer_clamped activeByServer server pools
        refine ⟨fun row hrow => ?_, fun u hu => ?_⟩
        · rcases List.mem_append.mp hrow with hl | hr2
          · exact h1 row hl
          · exact ih1 row hr2
        · rcases List.mem_cons.mp hu with rfl | hr2
          · exact h2
          · exact ih2 u hr2

/-- Clamping propagated through the phase-4 outer loop. -/
theorem poolPhase_clamped (fetchPools : Int → String → Except String (List licensePool))
    (activeByServer : List (String × ℚ)) (serversByVG : List (Int × List licenseServer))
    (vgs : List virtualGroup)
    (caps : List ServerFeatureCapacitySnapshot) (pus : List PoolUsageSnapshot)
    (sus : List ServerUsageSnapshot)
    (h : poolPhase fetchPools activeByServer serversByVG vgs = .ok (caps, pus, sus)) :
    (∀ row ∈ pus, row.available = maxFloat64 0 (row.allocated - row.inUse)) ∧
    (∀ u ∈ sus, u.available = maxFloat64 0 (u.allocated - u.inUse)) := by
  induction vgs generalizing caps pus sus with
  | nil =>
    simp only [poolPhase] at h
    obtain ⟨rfl, rfl, rfl⟩ := by simpa using h
    simp
  | cons vg rest ih =>
    simp only [poolPhase] at h
    cases hs : poolPhaseServers fetchPools activeByServer vg.id (getD serversByVG vg.id []) with
    | error e => rw [hs] at h; exact absurd h (by simp)
    | ok t =>
      obtain ⟨caps1, pus1, sus1⟩ := t
      rw [hs] at h
      cases hr : poolPhase fetchPools activeByServer serversByVG rest with
      | error e => rw [hr] at h; exact absurd h (by simp)
      | ok t' =>
        obtain ⟨caps2, pus2, sus2⟩ := t'
        rw [hr] at h
        simp only [Except.ok.injEq, Prod.mk.injEq] at h
        obtain ⟨rfl, rfl, rfl⟩ := h
        obtain ⟨a1, a2⟩ := poolPhaseServers_clamped fetchPools activeByServer vg.id _ caps1 pus1 sus1 hs
        obtain ⟨b1, b2⟩ := ih caps2 pus2 sus2 hr
        refine ⟨fun row hrow => ?_, fun u hu => ?_⟩
        · rcases List.mem_append.mp hrow with hl | hr2
          · exact a1 row hl
          · exact b1 row hr2
        · rcases List.mem_append.mp hu with hl | hr2
          · exact a2 u hl
          · exact b2 u hr2

/-- Inversion of a successful `fetchSnapshot`: names for the intermediate
phase results. -/
theorem fetchSnapshot_ok_inv (w : FetchWorld) (s : Snapshot)
    (h : fetchSnapshot w = .ok s) :
    ∃ vgs serversByVG activeByServer serverActiveLeases serverFeatureActiveLeases
      activeLeaseTotal caps pus sus,
      w.virtualGroups = .ok vgs ∧
      listServersPhase w.licenseServers vgs = .ok serversByVG ∧
      fetchActiveLeaseUsage w.activeLeases serversByVG =
        .ok (activeByServer, serverActiveLeases, serverFeatureActiveLeases, activeLeaseTotal) ∧
      poolPhase w.licensePools activeByServer serversByVG vgs = .ok (caps, pus, sus) ∧
      s = { collectedAt := w.now
            entitlementFeatures := extractEntitlementFeatureMetrics vgs
            serverFeatureCapacity := caps
            serverUsage := sus
            serverActiveLeases := serverActiveLeases
            serverFeatureActiveLeases := serverFeatureActiveLeases
            activeLeaseTotal := activeLeaseTotal
            poolUsage := pus } := by
  unfold fetchSnapshot at h
  split at h
  · cases h
  next vgs hv =>
    split at h
    · cases h
    next serversByVG hl =>
      split at h
      · cases h
      next activeByServer serverActiveLeases serverFeatureActiveLeases activeLeaseTotal ha =>
        split at h
        · cases h
        next caps pus sus hp =>
          simp only [Except.ok.injEq] at h
          exact ⟨vgs, serversByVG, activeByServer, serverActiveLeases,
            serverFeatureActiveLeases, activeLeaseTotal, caps, pus, sus,
            hv, hl, ha, hp, h.symm⟩

/-- C6: In every snapshot a successful `FetchSnapshot` produces, every
pool-usage row and every server-usage row satisfies
`available = max(0, allocated − inUse)`, so `available` is never negative;
in particular a pool feature with `allocated=50, inUse=80` yields
`available=0`. -/
theorem available_never_negative (w : FetchWorld) (s : Snapshot)
    (h : fetchSnapshot w = .ok s) :
    (∀ row ∈ s.poolUsage, row.available = maxFloat64 0 (row.allocated - row.inUse)) ∧
    (∀ u ∈ s.serverUsage, u.available = maxFloat64 0 (u.allocated - u.inUse)) ∧
    (fetchSnapshot overusedWorld).toOption.map
        (fun snap => snap.poolUsage.map (fun row => (row.allocated, row.inUse, row.available))) =
      some [(50, 80, 0)] := by
  obtain ⟨vgs, sbv, aby, sal, sfal, alt, caps, pus, sus, hv, hl, ha, hp, rfl⟩ :=
    fetchSnapshot_ok_inv w s h
  obtain ⟨h1, h2⟩ := poolPhase_clamped w.licensePools aby sbv vgs caps pus sus hp
  refine ⟨by simpa using h1, by simpa using h2, ?_⟩
  norm_num +decide [fetchSnapshot, overusedWorld, listServersPhase, backfillServer,
    insertReplace, fetchActiveLeaseUsage, allQueries, flatMapL, groupQueries,
    serviceInstanceIDsOf, trimS, buildServerByID, buildFeatureByAllotmentID,
    runLeaseQueries, processQuery, processClient, resolveServerID, processLease,
    normalizeLeaseCount, getD, lookupA, firstNonEmptyNonBlank, addToKey, emptyLeaseAgg,
    buildServerActiveLeaseRows, buildFeatureActiveLeaseRows, poolPhase, poolPhaseServers,
    processServer, poolDerivedAllocated, poolDerivedInUse, maxFloat64, List.dropWhile]

/-- C6 witness: the clamp equation at the concrete overused pool row. -/
theorem available_never_negative_witness :
    overusedPoolRow.available = maxFloat64 0 (overusedPoolRow.allocated - overusedPoolRow.inUse) :=
  (available_never_negative overusedWorld overusedSnap
    (by norm_num +decide [fetchSnapshot, overusedWorld, overusedSnap, listServersPhase,
      backfillServer, insertReplace, fetchActiveLeaseUsage, allQueries, flatMapL,
      groupQueries, serviceInstanceIDsOf, trimS, buildServerByID, buildFeatureByAllotmentID,
      runLeaseQueries, processQuery, processClient, resolveServerID, processLease,
      normalizeLeaseCount, getD, lookupA, firstNonEmptyNonBlank, addToKey, emptyLeaseAgg,
      buildServerActiveLeaseRows, buildFeatureActiveLeaseRows, poolPhase, poolPhaseServers,
      processServer, poolDerivedAllocated, poolDerivedInUse, maxFloat64, List.dropWhile,
      Except.toOption, Option.getD])).1
    overusedPoolRow
    (by norm_num +decide [fetchSnapshot, overusedWorld, overusedSnap, overusedPoolRow,
      listServersPhase, backfillServer, insertReplace, fetchActiveLeaseUsage, allQueries,
      flatMapL, groupQueries, serviceInstanceIDsOf, trimS, buildServerByID,
      buildFeatureByAllotmentID, runLeaseQueries, processQuery, processClient,
      resolveServerID, processLease, normalizeLeaseCount, getD, lookupA,
      firstNonEmptyNonBlank, addToKey, emptyLeaseAgg, buildServerActiveLeaseRows,
      buildFeatureActiveLeaseRows, poolPhase, poolPhaseServers, processServer,
      poolDerivedAllocated, poolDerivedInUse, maxFloat64, List.dropWhile,
      Except.toOption, Option.getD])

/-- C5: In the phase-4 rollup of one server, a present active-lease total `c`
replaces the pool-derived in-use figure (`InUse = c`,
`Available = max(0, allocated − c)`); with no active-lease total the
pool-derived figures stand.  In particular the spec scenario (one server
with pool allocation 100 and one lease of count 3) yields
`in_use=3, available=97`. -/
theorem serverUsage_activeLease_override (activeByServer : List (String × ℚ))
    (server : licenseServer) (pools : List licensePool) :
    (match lookupA activeByServer server.id with
     | some c =>
       (processServer activeByServer server pools).2.2.allocated = poolDerivedAllocated pools ∧
       (processServer activeByServer server pools).2.2.inUse = c ∧
       (processServer activeByServer server pools).2.2.available =
         maxFloat64 0 (poolDerivedAllocated pools - c)
     | none =>
       (processServer activeByServer server pools).2.2.allocated = poolDerivedAllocated pools ∧
       (processServer activeByServer server pools).2.2.inUse = poolDerivedInUse pools ∧
       (processServer activeByServer server pools).2.2.available =
         maxFloat64 0 (poolDerivedAllocated pools - poolDerivedInUse pools)) ∧
    (fetchSnapshot scenarioWorld).toOption.map
        (fun snap => snap.serverUsage.map
          (fun u => (u.serverID, u.allocated, u.inUse, u.available))) =
      some [("srv-1", 100, 3, 97)] := by
  constructor
  · cases hx : lookupA activeByServer server.id <;> simp [processServer, hx]
  · norm_num +decide [fetchSnapshot, scenarioWorld, sampleServer, sampleFeature,
      listServersPhase, backfillServer, insertReplace, fetchActiveLeaseUsage, allQueries,
      flatMapL, groupQueries, serviceInstanceIDsOf, trimS, buildServerByID,
      buildFeatureByAllotmentID, runLeaseQueries, processQuery, processClient,
      resolveServerID, processLease, normalizeLeaseCount, getD, lookupA,
      firstNonEmptyNonBlank, addToKey, emptyLeaseAgg, buildServerActiveLeaseRows,
      buildFeatureActiveLeaseRows, poolPhase, poolPhaseServers, processServer,
      poolDerivedAllocated, poolDerivedInUse, maxFloat64, List.dropWhile]

/-! ### Lease-aggregation correspondence lemmas -/

theorem sumValues_nil {α : Type} : sumValues ([] : List (α × ℚ)) = 0 := rfl

theorem sumValues_cons {α : Type} (p : α × ℚ) (m : List (α × ℚ)) :
    sumValues (p :: m) = p.2 + sumValues m := by
  simp [sumValues]

theorem sumValues_addToKey {α : Type} [DecidableEq α] (m : List (α × ℚ)) (k : α) (c : ℚ) :
    sumValues (addToKey m k c) = sumValues m + c := by
  induction m with
  | nil => simp [addToKey, sumValues]
  | cons p rest ih =>
    obtain ⟨k', v⟩ := p
    by_cases h : k = k'
    · simp [addToKey, h, sumValues_cons]
      ring
    · simp [addToKey, h, sumValues_cons, ih]
      ring

theorem normalizeLeaseCount_pos (c : ℚ) : 0 < normalizeLeaseCount c := by
  unfold normalizeLeaseCount
  split
  · norm_num
  · linarith [not_le.mp (by assumption : ¬ c ≤ 0)]

theorem addToKey_nonneg {α : Type} [DecidableEq α] (m : List (α × ℚ)) (k : α) (c : ℚ)
    (hc : 0 ≤ c) (hm : nonnegValues m) : nonnegValues (addToKey m k c) := by
  induction m with
  | nil =>
    intro p hp
    simp [addToKey] at hp
    simp [hp, hc]
  | cons q rest ih =>
    obtain ⟨k', v⟩ := q
    by_cases h : k = k'
    · intro p hp
      simp [addToKey, h] at hp
      rcases hp with rfl | hp
      · have := hm (k', v) (by simp)
        simp at this ⊢
        linarith
      · exact hm p (List.mem_cons_of_mem _ hp)
    · intro p hp
      simp only [addToKey, if_neg h] at hp
      rcases List.mem_cons.mp hp with rfl | hp
      · exact hm (k', v) (by simp)
      · exact ih (fun q hq => hm q (List.mem_cons_of_mem _ hq)) p hp

theorem dedupFold_nil (acc : List String × ℚ) : dedupFold [] acc = acc := rfl

theorem dedupFold_cons (e : String × String × ℚ) (es : List (String × String × ℚ))
    (acc : List String × ℚ) : dedupFold (e :: es) acc = dedupFold es (dedupStep e acc) := rfl

theorem dedupFold_append (a b : List (String × String × ℚ)) (acc : List String × ℚ) :
    dedupFold (a ++ b) acc = dedupFold b (dedupFold a acc) := by
  simp [dedupFold, List.foldl_append]

theorem dedupFold_unresolved (entries : List (String × String × ℚ)) (acc : List String × ℚ)
    (h : ∀ e ∈ entries, e.1 = "") : dedupFold entries acc = acc := by
  induction entries with
  | nil => rfl
  | cons e es ih =>
    rw [dedupFold_cons, dedupStep, if_pos (h e (by simp))]
    exact ih (fun e' he' => h e' (List.mem_cons_of_mem _ he'))

/-- One lease step agrees with one `dedupStep` and changes the two keyed
sums by the same amount as the total. -/
theorem processLease_corr (ctx : GroupLeaseCtx) (serverID serverName : String)
    (lease : activeLease) (st : LeaseAgg) (hsid : serverID ≠ "") :
    ((processLease ctx serverID serverName lease st).seenLeaseIDs,
     (processLease ctx serverID serverName lease st).total) =
      dedupStep (serverID, trimS lease.leaseID, normalizeLeaseCount lease.leaseCount)
        (st.seenLeaseIDs, st.total) ∧
    sumValues (processLease ctx serverID serverName lease st).serverTotals -
        (processLease ctx serverID serverName lease st).total =
      sumValues st.serverTotals - st.total ∧
    sumValues (processLease ctx serverID serverName lease st).featureTotals -
        (processLease ctx serverID serverName lease st).total =
      sumValues st.featureTotals - st.total ∧
    (nonnegValues st.serverTotals →
      nonnegValues (processLease ctx serverID serverName lease st).serverTotals) := by
  by_cases hdup : trimS lease.leaseID ≠ "" ∧ trimS lease.leaseID ∈ st.seenLeaseIDs
  · refine ⟨?_, ?_, ?_, ?_⟩ <;>
      simp [processLease, dedupStep, hdup, hsid]
  · refine ⟨?_, ?_, ?_, ?_⟩
    · simp only [processLease, dedupStep, if_neg hdup, if_neg hsid]
    · simp only [processLease, if_neg hdup, sumValues_addToKey]
      ring
    · simp only [processLease, if_neg hdup, sumValues_addToKey]
      ring
    · intro hm
      simp only [processLease, if_neg hdup]
      exact addToKey_nonneg _ _ _ (le_of_lt (normalizeLeaseCount_pos _)) hm

/-- The lease loop of one client agrees with `dedupFold` over its entries. -/
theorem leases_foldl_corr (ctx : GroupLeaseCtx) (serverID serverName : String)
    (leases : List activeLease) (st : LeaseAgg) (hsid : serverID ≠ "") :
    ((leases.foldl (fun s l => processLease ctx serverID serverName l s) st).seenLeaseIDs,
     (leases.foldl (fun s l => processLease ctx serverID serverName l s) st).total) =
      dedupFold (leases.map fun l =>
          (serverID, trimS l.leaseID, normalizeLeaseCount l.leaseCount))
        (st.seenLeaseIDs, st.total) ∧
    sumValues (leases.foldl (fun s l => processLease ctx serverID serverName l s) st).serverTotals -
        (leases.foldl (fun s l => processLease ctx serverID serverName l s) st).total =
      sumValues st.serverTotals - st.total ∧
    sumValues (leases.foldl (fun s l => processLease ctx serverID serverName l s) st).featureTotals -
        (leases.foldl (fun s l => processLease ctx serverID serverName l s) st).total =
      sumValues st.featureTotals - st.total ∧
    (nonnegValues st.serverTotals →
      nonnegValues
        (leases.foldl (fun s l => processLease ctx serverID serverName l s) st).serverTotals) := by
  induction leases generalizing st with
  | nil => simp [dedupFold_nil]
  | cons l rest ih =>
    obtain ⟨c1, c2, c3, c4⟩ := processLease_corr ctx serverID serverName l st hsid
    obtain ⟨d1, d2, d3, d4⟩ := ih (processLease ctx serverID serverName l st)
    refine ⟨?_, ?_, ?_, ?_⟩
    · rw [List.foldl_cons, List.map_cons, dedupFold_cons, d1, c1]
    · rw [List.foldl_cons]; rw [d2, c2]
    · rw [List.foldl_cons]; rw [d3, c3]
    · intro hm
      rw [List.foldl_cons]
      exact d4 (c4 hm)

/-- One client record agrees with `dedupFold` over its entries. -/
theorem processClient_corr (ctx : GroupLeaseCtx) (client : activeLeaseClient) (st : LeaseAgg) :
    ((processClient ctx client st).seenLeaseIDs, (processClient ctx client st).total) =
      dedupFold (clientLeaseEntries ctx client) (st.seenLeaseIDs, st.total) ∧
    sumValues (processClient ctx client st).serverTotals - (processClient ctx client st).total =
      sumValues st.serverTotals - st.total ∧
    sumValues (processClient ctx client st).featureTotals - (processClient ctx client st).total =
      sumValues st.featureTotals - st.total ∧
    (nonnegValues st.serverTotals → nonnegValues (processClient ctx client st).serverTotals) := by
  by_cases h : resolveServerID ctx.serverByID client = ""
  · have hz : dedupFold (clientLeaseEntries ctx client) (st.seenLeaseIDs, st.total) =
        (st.seenLeaseIDs, st.total) := by
      apply dedupFold_unresolved
      intro e he
      simp only [clientLeaseEntries, List.mem_map] at he
      obtain ⟨l, _, rfl⟩ := he
      exact h
    refine ⟨?_, ?_, ?_, ?_⟩ <;> simp [processClient, h, hz]
  · obtain ⟨c1, c2, c3, c4⟩ := leases_foldl_corr ctx (resolveServerID ctx.serverByID client)
      (if firstNonEmptyNonBlank [client.additionalProperties.licenseServerName,
          (getD ctx.serverByID (resolveServerID ctx.serverByID client) default).name] = ""
        then "unknown"
        else firstNonEmptyNonBlank [client.additionalProperties.licenseServerName,
          (getD ctx.serverByID (resolveServerID ctx.serverByID client) default).name])
      client.leases st h
    refine ⟨?_, ?_, ?_, ?_⟩ <;>
      simp only [processClient, if_neg h, clientLeaseEntries] <;>
      [exact c1; exact c2; exact c3; exact c4]

/-- One query's client list agrees with `dedupFold` over its entries. -/
theorem processQuery_corr (ctx : GroupLeaseCtx) (clients : List activeLeaseClient)
    (st : LeaseAgg) :
    ((processQuery ctx clients st).seenLeaseIDs, (processQuery ctx clients st).total) =
      dedupFold (flatMapL (clientLeaseEntries ctx) clients) (st.seenLeaseIDs, st.total) ∧
    sumValues (processQuery ctx clients st).serverTotals - (processQuery ctx clients st).total =
      sumValues st.serverTotals - st.total ∧
    sumValues (processQuery ctx clients st).featureTotals - (processQuery ctx clients st).total =
      sumValues st.featureTotals - st.total ∧
    (nonnegValues st.serverTotals → nonnegValues (processQuery ctx clients st).serverTotals) := by
  induction clients generalizing st with
  | nil => simp [processQuery, flatMapL, dedupFold_nil]
  | cons client rest ih =>
    obtain ⟨c1, c2, c3, c4⟩ := processClient_corr ctx client st
    obtain ⟨d1, d2, d3, d4⟩ := ih (processClient ctx client st)
    have hq : processQuery ctx (client :: rest) st =
        processQuery ctx rest (processClient ctx client st) := rfl
    refine ⟨?_, ?_, ?_, ?_⟩
    · rw [hq, flatMapL, dedupFold_append, d1, c1]
    · rw [hq, d2, c2]
    · rw [hq, d3, c3]
    · intro hm
      rw [hq]
      exact d4 (c4 hm)

/-- The whole pure aggregation agrees with `dedupFold` over all entries. -/
theorem aggregateQueries_corr (queryData : List (GroupLeaseCtx × List activeLeaseClient))
    (st : LeaseAgg) :
    ((aggregateQueries queryData st).seenLeaseIDs, (aggregateQueries queryData st).total) =
      dedupFold (queryLeaseEntries queryData) (st.seenLeaseIDs, st.total) ∧
    sumValues (aggregateQueries queryData st).serverTotals - (aggregateQueries queryData st).total =
      sumValues st.serverTotals - st.total ∧
    sumValues (aggregateQueries queryData st).featureTotals - (aggregateQueries queryData st).total =
      sumValues st.featureTotals - st.total ∧
    (nonnegValues st.serverTotals → nonnegValues (aggregateQueries queryData st).serverTotals) := by
  induction queryData generalizing st with
  | nil => simp [aggregateQueries, queryLeaseEntries, flatMapL, dedupFold_nil]
  | cons q rest ih =>
    obtain ⟨c1, c2, c3, c4⟩ := processQuery_corr q.1 q.2 st
    obtain ⟨d1, d2, d3, d4⟩ := ih (processQuery q.1 q.2 st)
    have hq : aggregateQueries (q :: rest) st =
        aggregateQueries rest (processQuery q.1 q.2 st) := rfl
    refine ⟨?_, ?_, ?_, ?_⟩
    · rw [hq, queryLeaseEntries, flatMapL, dedupFold_append, ← queryLeaseEntries, d1, c1]
    · rw [hq, d2, c2]
    · rw [hq, d3, c3]
    · intro hm
      rw [hq]
      exact d4 (c4 hm)

/-! ### The remaining claim theorems on phase 3 -/

/-- C4: Over one fetch's whole lease-processing sequence, the grand total
follows exactly the claimed policy — a lease on an unresolvable client
contributes nothing; a lease with a non-empty trimmed id contributes at most
once globally, first occurrence winning across all service-instance queries;
leases with empty ids are never deduplicated; each counted lease contributes
its count, normalized to 1 when non-positive — and the per-server and
per-(server×feature) totals each absorb exactly the same contributions, so
their sums equal the grand total. -/
theorem lease_dedup_normalization (queryData : List (GroupLeaseCtx × List activeLeaseClient)) :
    (aggregateQueries queryData emptyLeaseAgg).total =
      (dedupFold (queryLeaseEntries queryData) ([], 0)).2 ∧
    sumValues (aggregateQueries queryData emptyLeaseAgg).serverTotals =
      (aggregateQueries queryData emptyLeaseAgg).total ∧
    sumValues (aggregateQueries queryData emptyLeaseAgg).featureTotals =
      (aggregateQueries queryData emptyLeaseAgg).total := by
  obtain ⟨c1, c2, c3, _⟩ := aggregateQueries_corr queryData emptyLeaseAgg
  have h0 : (aggregateQueries queryData emptyLeaseAgg).total =
      (dedupFold (queryLeaseEntries queryData) ([], 0)).2 := by
    have := congrArg Prod.snd c1
    simpa [emptyLeaseAgg] using this
  refine ⟨h0, ?_, ?_⟩
  · have : sumValues (aggregateQueries queryData emptyLeaseAgg).serverTotals -
        (aggregateQueries queryData emptyLeaseAgg).total = 0 := by
      simpa [emptyLeaseAgg, sumValues_nil] using c2
    linarith
  · have : sumValues (aggregateQueries queryData emptyLeaseAgg).featureTotals -
        (aggregateQueries queryData emptyLeaseAgg).total = 0 := by
      simpa [emptyLeaseAgg, sumValues_nil] using c3
    linarith

theorem lookupA_insertReplace {α β : Type} [DecidableEq α] (m : List (α × β)) (k k' : α)
    (v : β) :
    lookupA (insertReplace m k v) k' = if k' = k then some v else lookupA m k' := by
  induction m with
  | nil => simp [insertReplace, lookupA]
  | cons p rest ih =>
    obtain ⟨k0, v0⟩ := p
    by_cases h : k = k0
    · subst h
      by_cases h' : k' = k <;> simp [insertReplace, lookupA, h']
    · by_cases h' : k' = k0
      · subst h'
        have hne : ¬ k' = k := fun he => h he.symm
        simp [insertReplace, lookupA, h, hne]
      · simp [insertReplace, lookupA, h, h', ih]

theorem insertReplace_length_new {α β : Type} [DecidableEq α] (m : List (α × β)) (k : α)
    (v : β) (h : lookupA m k = none) :
    (insertReplace m k v).length = m.length + 1 := by
  induction m with
  | nil => simp [insertReplace]
  | cons p rest ih =>
    obtain ⟨k0, v0⟩ := p
    have hk : ¬ k = k0 := by
      intro hk
      simp [lookupA, hk] at h
    have hrest : lookupA rest k = none := by
      simpa [lookupA, hk] using h
    simp [insertReplace, hk, ih hrest]

theorem foldl_insert_length (servers : List licenseServer)
    (m : List (String × licenseServer))
    (h : ∀ s ∈ servers, lookupA m s.id = none)
    (hnd : (servers.map licenseServer.id).Nodup) :
    (servers.foldl (fun m' s => insertReplace m' s.id s) m).length =
      m.length + servers.length := by
  induction servers generalizing m with
  | nil => simp
  | cons s0 rest ih =>
    have hnd' : (rest.map licenseServer.id).Nodup := (List.nodup_cons.mp hnd).2
    have h0 : s0.id ∉ rest.map licenseServer.id := (List.nodup_cons.mp hnd).1
    have hrest : ∀ s ∈ rest, lookupA (insertReplace m s0.id s0) s.id = none := by
      intro s hs
      rw [lookupA_insertReplace]
      have hne : s.id ≠ s0.id := by
        intro he
        exact h0 (he ▸ List.mem_map_of_mem licenseServer.id hs)
      rw [if_neg hne]
      exact h s (List.mem_cons_of_mem _ hs)
    calc ((s0 :: rest).foldl (fun m' s => insertReplace m' s.id s) m).length
        = (rest.foldl (fun m' s => insertReplace m' s.id s)
            (insertReplace m s0.id s0)).length := rfl
      _ = (insertReplace m s0.id s0).length + rest.length := ih _ hrest hnd'
      _ = m.length + 1 + rest.length := by
          rw [insertReplace_length_new m s0.id s0 (h s0 (by simp))]
      _ = m.length + (s0 :: rest).length := by simp; ring

theorem buildServerByID_length (servers : List licenseServer)
    (hnd : (servers.map licenseServer.id).Nodup) :
    (buildServerByID servers).length = servers.length := by
  simpa using foldl_insert_length servers [] (by simp [lookupA]) hnd

/-- C9: A client's leases are attributed through the explicit (trimmed)
server id on the client record, or — when the `serverByID` map has exactly
one entry, i.e. (under distinct server ids) the group has exactly one
server — by inference to that sole server; a client that resolves to no
server is skipped whole, leaving every aggregate untouched. -/
theorem lease_attribution (ctx : GroupLeaseCtx) (client : activeLeaseClient) (st : LeaseAgg)
    (servers : List licenseServer) :
    (resolveServerID ctx.serverByID client = "" → processClient ctx client st = st) ∧
    (resolveServerID ctx.serverByID client ≠ "" →
      (trimS client.additionalProperties.licenseServerID ≠ "" ∧
        resolveServerID ctx.serverByID client =
          trimS client.additionalProperties.licenseServerID) ∨
      (trimS client.additionalProperties.licenseServerID = "" ∧
        ∃ entry, ctx.serverByID = [entry] ∧
          resolveServerID ctx.serverByID client = entry.1)) ∧
    ((servers.map licenseServer.id).Nodup →
      ((buildServerByID servers).length = 1 ↔ servers.length = 1)) := by
  refine ⟨fun h => by simp [processClient, h], fun hnz => ?_, fun hnd => ?_⟩
  · by_cases h1 : trimS client.additionalProperties.licenseServerID = ""
    · right
      refine ⟨h1, ?_⟩
      cases hsb : ctx.serverByID with
      | nil => exact absurd (by simp [resolveServerID, h1, hsb]) hnz
      | cons entry rest =>
        cases rest with
        | nil => exact ⟨entry, rfl, by simp [resolveServerID, h1, hsb]⟩
        | cons e2 rest2 => exact absurd (by simp [resolveServerID, h1, hsb]) hnz
    · left
      exact ⟨h1, by simp [resolveServerID, h1]⟩
  · rw [buildServerByID_length servers hnd]

/-- C9 witness: with two servers and no explicit id the client is skipped
and contributes nothing. -/
theorem lease_attribution_witness :
    processClient twoServerCtx anonClient emptyLeaseAgg = emptyLeaseAgg :=
  (lease_attribution twoServerCtx anonClient emptyLeaseAgg []).1 (by decide)

/-! ### Fail-fast lemmas (C7) -/

theorem listServersPhase_ok_sub (fetch : Int → Except String (List licenseServer))
    (vgs : List virtualGroup) (m : List (Int × List licenseServer))
    (h : listServersPhase fetch vgs = .ok m) :
    ∀ vg ∈ vgs, eIsError (fetch vg.id) = false := by
  induction vgs generalizing m with
  | nil => intro vg hvg; cases hvg
  | cons vg0 rest ih =>
    simp only [listServersPhase] at h
    cases hf : fetch vg0.id with
    | error e => rw [hf] at h; cases h
    | ok servers =>
      rw [hf] at h
      cases hr : listServersPhase fetch rest with
      | error e => rw [hr] at h; cases h
      | ok m' =>
        intro vg hvg
        rcases List.mem_cons.mp hvg with rfl | hvg'
        · simp [hf, eIsError]
        · exact ih m' hr vg hvg'

theorem runLeaseQueries_ok_sub (fetch : Int → String → Except String (List activeLeaseClient))
    (qs : List GroupLeaseCtx) (st st' : LeaseAgg)
    (h : runLeaseQueries fetch qs st = .ok st') :
    ∀ q ∈ qs, eIsError (fetch q.virtualGroupID q.serviceInstanceID) = false := by
  induction qs generalizing st with
  | nil => intro q hq; cases hq
  | cons q0 rest ih =>
    simp only [runLeaseQueries] at h
    cases hf : fetch q0.virtualGroupID q0.serviceInstanceID with
    | error e => rw [hf] at h; cases h
    | ok clients =>
      rw [hf] at h
      intro q hq
      rcases List.mem_cons.mp hq with rfl | hq'
      · simp [hf, eIsError]
      · exact ih (processQuery q0 clients st) h q hq'

theorem fetchActiveLeaseUsage_ok_inv (fetch : Int → String → Except String (List activeLeaseClient))
    (sbv : List (Int × List licenseServer))
    (r : List (String × ℚ) × List ServerActiveLeaseSnapshot
      × List ServerFeatureActiveLeaseSnapshot × ℚ)
    (h : fetchActiveLeaseUsage fetch sbv = .ok r) :
    ∃ st, runLeaseQueries fetch (allQueries sbv) emptyLeaseAgg = .ok st ∧
      r = (st.serverTotals, buildServerActiveLeaseRows sbv st.serverTotals,
           buildFeatureActiveLeaseRows st.featureTotals, st.total) := by
  unfold fetchActiveLeaseUsage at h
  split at h
  · cases h
  next st hst =>
    simp only [Except.ok.injEq] at h
    exact ⟨st, hst, h.symm⟩

theorem poolPhaseServers_ok_sub (fetchPools : Int → String → Except String (List licensePool))
    (activeByServer : List (String × ℚ)) (vgID : Int) (servers : List licenseServer)
    (t : List ServerFeatureCapacitySnapshot × List PoolUsageSnapshot × List ServerUsageSnapshot)
    (h : poolPhaseServers fetchPools activeByServer vgID servers = .ok t) :
    ∀ server ∈ servers, eIsError (fetchPools vgID server.id) = false := by
  induction servers generalizing t with
  | nil => intro s hs; cases hs
  | cons s0 rest ih =>
    simp only [poolPhaseServers] at h
    cases hf : fetchPools vgID s0.id with
    | error e => rw [hf] at h; cases h
    | ok pools =>
      rw [hf] at h
      cases hr : poolPhaseServers fetchPools activeByServer vgID rest with
      | error e => rw [hr] at h; cases h
      | ok t' =>
        intro s hs
        rcases List.mem_cons.mp hs with rfl | hs'
        · simp [hf, eIsError]
        · exact ih t' hr s hs'

theorem poolPhase_ok_sub (fetchPools : Int → String → Except String (List licensePool))
    (activeByServer : List (String × ℚ)) (sbv : List (Int × List licenseServer))
    (vgs : List virtualGroup)
    (t : List ServerFeatureCapacitySnapshot × List PoolUsageSnapshot × List ServerUsageSnapshot)
    (h : poolPhase fetchPools activeByServer sbv vgs = .ok t) :
    ∀ vg ∈ vgs, ∀ server ∈ getD sbv vg.id [],
      eIsError (fetchPools vg.id server.id) = false := by
  induction vgs generalizing t with
  | nil => intro vg hvg; cases hvg
  | cons vg0 rest ih =>
    simp only [poolPhase] at h
    cases hs : poolPhaseServers fetchPools activeByServer vg0.id (getD sbv vg0.id []) with
    | error e => rw [hs] at h; cases h
    | ok t1 =>
      rw [hs] at h
      cases hr : poolPhase fetchPools activeByServer sbv rest with
      | error e => rw [hr] at h; cases h
      | ok t2 =>
        intro vg hvg
        rcases List.mem_cons.mp hvg with rfl | hvg'
        · exact poolPhaseServers_ok_sub fetchPools activeByServer vg.id _ t1 hs
        · exact ih t2 hr vg hvg'

/-- C7: Any sub-fetch failure — the virtual-group list, any group's server
list, any (group, service-instance) lease query, or any (group, server) pool
list — makes `FetchSnapshot` return an error, hence no (partial) snapshot.
(The fetcher holds no state, so there is no prior state to mutate.) -/
theorem fetchSnapshot_fail_fast (w : FetchWorld) :
    (eIsError w.virtualGroups = true → eIsError (fetchSnapshot w) = true) ∧
    (∀ vgs, w.virtualGroups = .ok vgs →
      (∃ vg ∈ vgs, eIsError (w.licenseServers vg.id) = true) →
      eIsError (fetchSnapshot w) = true) ∧
    (∀ vgs serversByVG, w.virtualGroups = .ok vgs →
      listServersPhase w.licenseServers vgs = .ok serversByVG →
      (∃ q ∈ allQueries serversByVG,
        eIsError (w.activeLeases q.virtualGroupID q.serviceInstanceID) = true) →
      eIsError (fetchSnapshot w) = true) ∧
    (∀ vgs serversByVG, w.virtualGroups = .ok vgs →
      listServersPhase w.licenseServers vgs = .ok serversByVG →
      (∃ vg ∈ vgs, ∃ server ∈ getD serversByVG vg.id [],
        eIsError (w.licensePools vg.id server.id) = true) →
      eIsError (fetchSnapshot w) = true) := by
  refine ⟨fun h => ?_, fun vgs hv hex => ?_, fun vgs sbv hv hl hex => ?_,
    fun vgs sbv hv hl hex => ?_⟩
  · cases hv : w.virtualGroups with
    | error e => simp [fetchSnapshot, hv, eIsError]
    | ok vgs => rw [hv] at h; simp [eIsError] at h
  · cases hsn : fetchSnapshot w with
    | error e => simp [eIsError]
    | ok s =>
      obtain ⟨vgs', sbv', aby, sal, sfal, alt, caps, pus, sus, hv', hl', _, _, _⟩ :=
        fetchSnapshot_ok_inv w s hsn
      obtain ⟨rfl⟩ : vgs' = vgs := by
        rw [hv] at hv'; exact (Except.ok.injEq _ _).mp hv'.symm
      obtain ⟨vg, hvg, hfail⟩ := hex
      rw [listServersPhase_ok_sub w.licenseServers vgs sbv' hl' vg hvg] at hfail
      cases hfail
  · cases hsn : fetchSnapshot w with
    | error e => simp [eIsError]
    | ok s =>
      obtain ⟨vgs', sbv', aby, sal, sfal, alt, caps, pus, sus, hv', hl', ha', _, _⟩ :=
        fetchSnapshot_ok_inv w s hsn
      obtain ⟨rfl⟩ : vgs' = vgs := by
        rw [hv] at hv'; exact (Except.ok.injEq _ _).mp hv'.symm
      obtain ⟨rfl⟩ : sbv' = sbv := by
        rw [hl] at hl'; exact (Except.ok.injEq _ _).mp hl'.symm
      obtain ⟨st, hrun, _⟩ := fetchActiveLeaseUsage_ok_inv w.activeLeases sbv _ ha'
      obtain ⟨q, hq, hfail⟩ := hex
      rw [runLeaseQueries_ok_sub w.activeLeases _ _ _ hrun q hq] at hfail
      cases hfail
  · cases hsn : fetchSnapshot w with
    | error e => simp [eIsError]
    | ok s =>
      obtain ⟨vgs', sbv', aby, sal, sfal, alt, caps, pus, sus, hv', hl', _, hp', _⟩ :=
        fetchSnapshot_ok_inv w s hsn
      obtain ⟨rfl⟩ : vgs' = vgs := by
        rw [hv] at hv'; exact (Except.ok.injEq _ _).mp hv'.symm
      obtain ⟨rfl⟩ : sbv' = sbv := by
        rw [hl] at hl'; exact (Except.ok.injEq _ _).mp hl'.symm
      obtain ⟨vg, hvg, server, hserver, hfail⟩ := hex
      rw [poolPhase_ok_sub w.licensePools aby sbv vgs _ hp' vg hvg server hserver] at hfail
      cases hfail

/-- C7 witness: a failing root request makes the whole fetch fail. -/
theorem fetchSnapshot_fail_fast_witness :
    eIsError (fetchSnapshot rootFailWorld) = true :=
  (fetchSnapshot_fail_fast rootFailWorld).1 rfl

/-! ### Sum lemmas for C10 -/

theorem runLeaseQueries_ok_corr (fetch : Int → String → Except String (List activeLeaseClient))
    (qs : List GroupLeaseCtx) (st st' : LeaseAgg)
    (h : runLeaseQueries fetch qs st = .ok st') :
    sumValues st'.serverTotals - st'.total = sumValues st.serverTotals - st.total ∧
    sumValues st'.featureTotals - st'.total = sumValues st.featureTotals - st.total ∧
    (nonnegValues st.serverTotals → nonnegValues st'.serverTotals) := by
  induction qs generalizing st with
  | nil =>
    simp only [runLeaseQueries, Except.ok.injEq] at h
    subst h
    exact ⟨rfl, rfl, fun hm => hm⟩
  | cons q rest ih =>
    simp only [runLeaseQueries] at h
    cases hf : fetch q.virtualGroupID q.serviceInstanceID with
    | error e => rw [hf] at h; cases h
    | ok clients =>
      rw [hf] at h
      obtain ⟨c1, c2, c3, c4⟩ := processQuery_corr q clients st
      obtain ⟨d1, d2, d3⟩ := ih (processQuery q clients st) h
      exact ⟨by rw [d1, c2], by rw [d2, c3], fun hm => d3 (c4 hm)⟩

theorem getD_of_lookupA_none {α : Type} [DecidableEq α] (m : List (α × ℚ)) (k : α)
    (h : lookupA m k = none) : getD m k 0 = 0 := by
  simp [getD, h]

theorem sumValues_eraseKey {α : Type} [DecidableEq α] (m : List (α × ℚ)) (k : α) :
    sumValues m = getD m k 0 + sumValues (eraseKey m k) := by
  induction m with
  | nil => simp [eraseKey, getD, lookupA, sumValues]
  | cons p rest ih =>
    obtain ⟨k0, v⟩ := p
    by_cases h : k = k0
    · subst h
      simp [eraseKey, getD, lookupA, sumValues_cons]
    · simp only [eraseKey, if_neg h, sumValues_cons, getD, lookupA]
      have := ih
      simp only [getD] at this
      rw [this]
      ring

theorem getD_eraseKey_ne {α : Type} [DecidableEq α] (m : List (α × ℚ)) (k k' : α)
    (h : k' ≠ k) : getD (eraseKey m k) k' 0 = getD m k' 0 := by
  induction m with
  | nil => simp [eraseKey]
  | cons p rest ih =>
    obtain ⟨k0, v⟩ := p
    by_cases hk : k = k0
    · subst hk
      simp [eraseKey, getD, lookupA, if_neg h]
    · by_cases hk' : k' = k0
      · subst hk'
        simp [eraseKey, getD, lookupA, hk]
      · simp only [eraseKey, if_neg hk, getD, lookupA, if_neg hk']
        simpa [getD] using ih

theorem nonnegValues_eraseKey {α : Type} [DecidableEq α] (m : List (α × ℚ)) (k : α)
    (hm : nonnegValues m) : nonnegValues (eraseKey m k) := by
  induction m with
  | nil => intro p hp; cases hp
  | cons q rest ih =>
    obtain ⟨k0, v⟩ := q
    by_cases h : k = k0
    · subst h
      intro p hp
      exact hm p (List.mem_cons_of_mem _ (by simpa [eraseKey] using hp))
    · intro p hp
      simp only [eraseKey, if_neg h] at hp
      rcases List.mem_cons.mp hp with rfl | hp'
      · exact hm (k0, v) (by simp)
      · exact ih (fun q hq => hm q (List.mem_cons_of_mem _ hq)) p hp'

theorem sumValues_nonneg {α : Type} (m : List (α × ℚ)) (hm : nonnegValues m) :
    0 ≤ sumValues m := by
  induction m with
  | nil => simp [sumValues]
  | cons p rest ih =>
    rw [sumValues_cons]
    have h1 := hm p (by simp)
    have h2 := ih (fun q hq => hm q (List.mem_cons_of_mem _ hq))
    linarith

theorem sum_getD_le {α : Type} [DecidableEq α] (ks : List α) (m : List (α × ℚ))
    (hnd : ks.Nodup) (hm : nonnegValues m) :
    ((ks.map fun k => getD m k 0).sum) ≤ sumValues m := by
  induction ks generalizing m with
  | nil => simpa using sumValues_nonneg m hm
  | cons k rest ih =>
    have hk : k ∉ rest := (List.nodup_cons.mp hnd).1
    have hcong : rest.map (fun k' => getD m k' 0) =
        rest.map (fun k' => getD (eraseKey m k) k' 0) :=
      List.map_congr_left (fun k' hk' =>
        (getD_eraseKey_ne m k k' (fun he => hk (he ▸ hk'))).symm)
    rw [List.map_cons, List.sum_cons, hcong]
    have h1 := ih (eraseKey m k) (List.nodup_cons.mp hnd).2 (nonnegValues_eraseKey m k hm)
    have h2 := sumValues_eraseKey m k
    linarith

theorem buildFeatureRows_sum (m : List (ActiveFeatureKey × ℚ)) :
    ((buildFeatureActiveLeaseRows m).map ServerFeatureActiveLeaseSnapshot.activeLeases).sum =
      sumValues m := by
  unfold buildFeatureActiveLeaseRows sumValues
  rw [List.map_map]
  rfl

theorem buildServerRowsGroup_sum (m : List (String × ℚ)) (vgID : Int)
    (servers : List licenseServer) :
    ((flatMapL (fun server =>
        match lookupA m server.id with
        | none => []
        | some count =>
          [{ virtualGroupID := vgID
             virtualGroupName := server.virtualGroupName
             serverID := server.id
             serverName := server.name
             activeLeases := count : ServerActiveLeaseSnapshot }]) servers).map
      ServerActiveLeaseSnapshot.activeLeases).sum =
      ((servers.map licenseServer.id).map (fun k => getD m k 0)).sum := by
  induction servers with
  | nil => simp [flatMapL]
  | cons s rest ih =>
    cases hl : lookupA m s.id with
    | none =>
      simp only [flatMapL, hl, List.map_cons, List.map_append, List.sum_append,
        List.sum_cons, List.nil_append, List.map_nil, List.sum_nil]
      rw [ih, getD_of_lookupA_none m s.id hl]
      ring
    | some c =>
      simp only [flatMapL, hl, List.map_cons, List.map_append, List.sum_append,
        List.sum_cons, List.map_nil, List.sum_nil, List.singleton_append]
      rw [ih]
      have hgd : getD m s.id 0 = c := by simp [getD, hl]
      rw [hgd]

theorem buildServerRows_sum (sbv : List (Int × List licenseServer)) (m : List (String × ℚ)) :
    ((buildServerActiveLeaseRows sbv m).map ServerActiveLeaseSnapshot.activeLeases).sum =
      ((flatMapL (fun p => p.2.map licenseServer.id) sbv).map (fun k => getD m k 0)).sum := by
  induction sbv with
  | nil => simp [buildServerActiveLeaseRows, flatMapL]
  | cons p rest ih =>
    simp only [buildServerActiveLeaseRows, flatMapL, List.map_append, List.sum_append] at *
    rw [ih, buildServerRowsGroup_sum m p.1 p.2]

/-- C10: In a successful phase-3 result the grand total equals the sum of
the per-(server×feature) rows (each feature-total entry becomes exactly one
row and absorbs the same contributions as the grand total), while the sum of
the per-server rows is only bounded by the grand total, since rows are
emitted solely for server ids present in the fetched server list. -/
theorem active_lease_totals (fetch : Int → String → Except String (List activeLeaseClient))
    (sbv : List (Int × List licenseServer)) (aby : List (String × ℚ))
    (rowsS : List ServerActiveLeaseSnapshot) (rowsF : List ServerFeatureActiveLeaseSnapshot)
    (total : ℚ)
    (h : fetchActiveLeaseUsage fetch sbv = .ok (aby, rowsS, rowsF, total))
    (hnd : (flatMapL (fun p => p.2.map licenseServer.id) sbv).Nodup) :
    total = (rowsF.map ServerFeatureActiveLeaseSnapshot.activeLeases).sum ∧
    (rowsS.map ServerActiveLeaseSnapshot.activeLeases).sum ≤ total := by
  obtain ⟨st, hrun, heq⟩ := fetchActiveLeaseUsage_ok_inv fetch sbv _ h
  simp only [Prod.mk.injEq] at heq
  obtain ⟨h1, h2, h3, h4⟩ := heq
  subst h1; subst h2; subst h3; subst h4
  obtain ⟨d1, d2, hn⟩ := runLeaseQueries_ok_corr fetch _ emptyLeaseAgg st hrun
  have hts : sumValues st.serverTotals = st.total := by
    simp only [emptyLeaseAgg, sumValues_nil] at d1
    linarith
  have htf : sumValues st.featureTotals = st.total := by
    simp only [emptyLeaseAgg, sumValues_nil] at d2
    linarith
  have hnn : nonnegValues st.serverTotals := hn (by intro p hp; cases hp)
  constructor
  · rw [buildFeatureRows_sum, htf]
  · rw [buildServerRows_sum]
    calc ((flatMapL (fun p => p.2.map licenseServer.id) sbv).map (fun k => getD st.serverTotals k 0)).sum
        ≤ sumValues st.serverTotals := sum_getD_le _ _ hnd hnn
      _ = st.total := hts

/-- C10 witness: in the ghost configuration the feature-row sum equals the
grand total while the server-row sum (here 0, the lease's server id not
being in the server list) stays below it. -/
theorem active_lease_totals_witness :
    ghostResult.2.2.2 =
      ((ghostResult.2.2.1).map ServerFeatureActiveLeaseSnapshot.activeLeases).sum ∧
    ((ghostResult.2.1).map ServerActiveLeaseSnapshot.activeLeases).sum ≤ ghostResult.2.2.2 :=
  active_lease_totals ghostFetch ghostServersByVG ghostResult.1 ghostResult.2.1
    ghostResult.2.2.1 ghostResult.2.2.2
    (by norm_num +decide [fetchActiveLeaseUsage, ghostFetch, ghostServersByVG, ghostResult,
      runLeaseQueries, allQueries, groupQueries, flatMapL, serviceInstanceIDsOf, trimS,
      buildServerByID, buildFeatureByAllotmentID, insertReplace, processQuery, processClient,
      resolveServerID, processLease, normalizeLeaseCount, getD, lookupA,
      firstNonEmptyNonBlank, addToKey, emptyLeaseAgg, buildServerActiveLeaseRows,
      buildFeatureActiveLeaseRows, Except.toOption, Option.getD, List.dropWhile])
    (by decide)

end NvExporter
